import Mathlib

/-!
Verification of the PDF-to-JSON document-structuring pipeline (`src/app.py`).

The embedding models the pure content of the pipeline over exact rationals:
font sizes and page coordinates become `ℚ`, Python strings become `String`
with structural re-implementations of `str.strip` and `str.split`, and the
external extractor libraries (PyMuPDF, Camelot, pdfplumber) become an oracle
record whose fields are `Except Unit _` values, so that every behaviour of an
external call — including raising an exception — is a value the theorems can
quantify over.  Python's `try/except Exception: pass` blocks are modelled by
an explicit catch on `Except`, and `round` is modelled with Python's
round-half-to-even semantics.
-/

namespace PdfApp

/-- Python `str.strip` on the underlying character list: drop whitespace from
both ends. -/
def stripChars (cs : List Char) : List Char :=
  ((cs.dropWhile Char.isWhitespace).reverse.dropWhile Char.isWhitespace).reverse

/-- Python `str.strip()` (whitespace trimming, as used throughout `app.py`). -/
def pyStrip (s : String) : String := String.mk (stripChars s.data)

/-- Helper for `pyWordCount`: count maximal non-whitespace runs. -/
def wordCountAux : List Char → Bool → Nat
  | [], _ => 0
  | c :: cs, inWord =>
    if c.isWhitespace then wordCountAux cs false
    else (if inWord then 0 else 1) + wordCountAux cs true

/-- Python `len(txt.split())`: number of whitespace-separated words. -/
def pyWordCount (s : String) : Nat := wordCountAux s.data false

/-- Python `" ".join(parts)`. -/
def joinSpace : List String → String
  | [] => ""
  | [s] => s
  | s :: rest => s ++ " " ++ joinSpace rest

/-- Python `round` on an exact rational: round half to even. -/
def pyRound (q : ℚ) : ℤ :=
  if q - ⌊q⌋ < 1/2 then ⌊q⌋
  else if q - ⌊q⌋ > 1/2 then ⌊q⌋ + 1
  else if ⌊q⌋ % 2 = 0 then ⌊q⌋ else ⌊q⌋ + 1

/-! Data model: blocks, paragraphs, tables, charts (`app.py` §3) -/

/-- One text span of a PyMuPDF block dictionary (`span["text"]`,
`span["size"]`, `span["flags"]`). -/
structure Span where
  text : String
  size : ℚ
  flags : Nat
deriving DecidableEq

/-- One line of a PyMuPDF block dictionary. -/
structure Line where
  spans : List Span
deriving DecidableEq

/-- One raw block of `page.get_text("dict")["blocks"]`.  The bounding box is
optional: PyMuPDF normally supplies it, but `app.py` reads it with
`b.get("bbox")`, which yields `None` when absent. -/
structure RawBlock where
  lines : List Line
  bbox : Option (ℚ × ℚ × ℚ × ℚ)
deriving DecidableEq

/-- An enriched block as built by the first loop of
`extract_text_and_headings` (lines 22–39 of `app.py`). -/
structure Block where
  text : String
  bbox : Option (ℚ × ℚ × ℚ × ℚ)
  largest_font : ℚ
  is_bold : Bool
deriving DecidableEq

/-- An emitted paragraph content item. -/
structure Paragraph where
  sectionName : String
  sub_section : Option String
  text : String
deriving DecidableEq

/-- An emitted table content item. -/
structure TableItem where
  sectionName : String
  sub_section : Option String
  description : Option String
  table_data : List (List String)
deriving DecidableEq

/-- An emitted chart content item. -/
structure ChartItem where
  sectionName : String
  sub_section : Option String
  description : String
deriving DecidableEq

/-- A positioned word from `pdfplumber.extract_words` (the projection used by
`build_table_from_words`: `w["text"]`, `w["x0"]`, `w["top"]`). -/
structure PWord where
  text : String
  x0 : ℚ
  top : ℚ
deriving DecidableEq

/-- Python's `max(font_sizes) if font_sizes else 0` (line 32 of `app.py`). -/
def maxOrZero : List ℚ → ℚ
  | [] => 0
  | x :: xs => xs.foldl max x

/-- All spans of a raw block, in order. -/
def blockSpans (b : RawBlock) : List Span := (b.lines.map Line.spans).flatten

/-- Lines 22–39 of `app.py`: join the span texts with spaces, strip, drop the
block when the result is empty, and record the maximal span font size and the
bold flag (`flags & 2`). -/
def enrichBlock (b : RawBlock) : Option Block :=
  let spans := blockSpans b
  let text := pyStrip (joinSpace (spans.map Span.text))
  if text = "" then none
  else some
    { text := text
      bbox := b.bbox
      largest_font := maxOrZero (spans.map Span.size)
      is_bold := spans.any (fun sp => decide (sp.flags &&& 2 ≠ 0)) }

/-- Line 49 of `app.py`: `lf >= 16 or (lf >= 14 and bold)`. -/
def isSectionHeading (b : Block) : Bool :=
  decide (16 ≤ b.largest_font) || (decide (14 ≤ b.largest_font) && b.is_bold)

/-- Line 54 of `app.py`:
`(13 <= lf < 16 or (11.5 <= lf < 13 and bold)) or (len(txt.split()) <= 4 and bold)`;
`mkRat 23 2` is the exact rational `11.5`. -/
def isSubHeading (b : Block) : Bool :=
  ((decide (13 ≤ b.largest_font) && decide (b.largest_font < 16))
      || (decide ((mkRat 23 2) ≤ b.largest_font) && decide (b.largest_font < 13) && b.is_bold))
    || (decide (pyWordCount b.text ≤ 4) && b.is_bold)

/-- Python's `last_section if last_section else "Unknown"`: Python truthiness, so both
`None` and the empty string fall back to the sentinel. -/
def sectionLabel : Option String → String
  | none => "Unknown"
  | some t => if t = "" then "Unknown" else t

/-- The classification loop of `extract_text_and_headings` (lines 44–66 of
`app.py`), over blocks already in reading order: thread
`(last_section, last_subsection)` and collect the paragraph items. -/
def classifyBlocks : List Block → Option String → Option String →
    List Paragraph × Option String × Option String
  | [], s, ss => ([], s, ss)
  | b :: rest, s, ss =>
    if isSectionHeading b then classifyBlocks rest (some b.text) none
    else if isSubHeading b then classifyBlocks rest s (some b.text)
    else
      let r := classifyBlocks rest s ss
      (⟨sectionLabel s, ss, b.text⟩ :: r.1, r.2)

/-- The sort key of line 42 of `app.py`: `(x["bbox"][1], x["bbox"][0])`.
When the bounding box is `None`, Python raises a `TypeError` while computing
the key; this is the `Except.error` case. -/
def blockSortKey (b : Block) : Except Unit (ℚ × ℚ) :=
  match b.bbox with
  | none => Except.error ()
  | some (x0, y0, _, _) => Except.ok (y0, x0)

/-- Lexicographic comparison of sort keys, as Python compares tuples. -/
def keyLe (a b : (ℚ × ℚ) × Block) : Prop :=
  a.1.1 < b.1.1 ∨ (a.1.1 = b.1.1 ∧ a.1.2 ≤ b.1.2)

instance : DecidableRel keyLe := fun a b => by unfold keyLe; infer_instance

instance : IsTotal ((ℚ × ℚ) × Block) keyLe :=
  ⟨fun a b => by
    unfold keyLe
    rcases lt_trichotomy a.1.1 b.1.1 with h | h | h
    · exact Or.inl (Or.inl h)
    · rcases le_total a.1.2 b.1.2 with h2 | h2
      · exact Or.inl (Or.inr ⟨h, h2⟩)
      · exact Or.inr (Or.inr ⟨h.symm, h2⟩)
    · exact Or.inr (Or.inl h)⟩

instance : IsTrans ((ℚ × ℚ) × Block) keyLe :=
  ⟨fun a b c hab hbc => by
    unfold keyLe at *
    rcases hab with h1 | ⟨h1, h1x⟩ <;> rcases hbc with h2 | ⟨h2, h2x⟩
    · exact Or.inl (h1.trans h2)
    · exact Or.inl (h2 ▸ h1)
    · exact Or.inl (h1 ▸ h2)
    · exact Or.inr ⟨h1.trans h2, h1x.trans h2x⟩⟩

/-- Compute the sort key of every enriched block, left to right, raising at
the first block whose bounding box is `None` — exactly the behaviour of
Python's `list.sort(key=...)`, which evaluates the key function on every
element. -/
def keyBlocks : List Block → Except Unit (List ((ℚ × ℚ) × Block))
  | [] => Except.ok []
  | b :: rest =>
    (blockSortKey b).bind (fun k =>
      (keyBlocks rest).bind (fun tail => Except.ok ((k, b) :: tail)))

/-- Function `extract_text_and_headings` (lines 17–66 of `app.py`): enrich the raw
blocks, sort them stably by `(bbox[1], bbox[0])` — raising when a kept block
has no bounding box, exactly as the Python sort key does — then run the
classification loop. -/
def extract_text_and_headings (bs : List RawBlock) (s ss : Option String) :
    Except Unit (List Paragraph × Option String × Option String) :=
  (keyBlocks (bs.filterMap enrichBlock)).bind (fun keyed =>
    Except.ok (classifyBlocks ((List.insertionSort keyLe keyed).map Prod.snd) s ss))

/-! Word-Cluster Table Builder (`build_table_from_words`, lines 69–95) -/

/-- Line 81 of `app.py`: `round(top / y_tolerance) * y_tolerance`. -/
def rowKeyOf (yTol : ℚ) (top : ℚ) : ℚ := (pyRound (top / yTol) : ℚ) * yTol

/-- Lines 76–82 of `app.py`: keep the words with non-empty stripped text,
tagged with their quantized row key, preserving input order
(`rows[y].append((w["x0"], text))`). -/
def keptCells (yTol : ℚ) (ws : List PWord) : List (ℚ × ℚ × String) :=
  ws.filterMap (fun w =>
    let t := pyStrip w.text
    if t = "" then none else some (rowKeyOf yTol w.top, w.x0, t))

/-- Line 85 of `app.py`: `sorted(rows.keys())` — the distinct row keys in
ascending order. -/
def rowKeys (yTol : ℚ) (ws : List PWord) : List ℚ :=
  List.insertionSort (· ≤ ·) ((keptCells yTol ws).map Prod.fst).dedup

/-- The `(x0, text)` pairs appended to `rows[k]`, in append order. -/
def rowCells (yTol : ℚ) (ws : List PWord) (k : ℚ) : List (ℚ × String) :=
  ((keptCells yTol ws).filter (fun c => c.1 = k)).map Prod.snd

/-- Line 86 of `app.py`: `sorted(rows[y], key=lambda x: x[0])` — a stable
sort by `x0`, which is what Python's stable `sorted` computes. -/
def xSorted (cells : List (ℚ × String)) : List (ℚ × String) :=
  List.insertionSort (fun a b => a.1 ≤ b.1) cells

instance : DecidableRel (fun (a b : ℚ × String) => a.1 ≤ b.1) :=
  fun a b => inferInstanceAs (Decidable (a.1 ≤ b.1))

instance : IsTotal (ℚ × String) (fun a b => a.1 ≤ b.1) :=
  ⟨fun a b => le_total a.1 b.1⟩

instance : IsTrans (ℚ × String) (fun a b => a.1 ≤ b.1) :=
  ⟨fun _ _ _ h1 h2 => le_trans h1 h2⟩

/-- Lines 87–93 of `app.py`: walk the sorted `(x0, text)` pairs, tracking the
previous `x0`; when the gap exceeds `col_gap`, insert one empty cell before
the word's text. -/
def emitRow (colGap : ℚ) : List (ℚ × String) → Option ℚ → List String
  | [], _ => []
  | (x, t) :: rest, last =>
    match last with
    | none => t :: emitRow colGap rest (some x)
    | some lx =>
      if colGap < x - lx then "" :: t :: emitRow colGap rest (some x)
      else t :: emitRow colGap rest (some x)

/-- Function `build_table_from_words` (lines 69–95 of `app.py`). -/
def build_table_from_words (ws : List PWord) (yTol colGap : ℚ) :
    List (List String) :=
  if ws.isEmpty then []
  else (rowKeys yTol ws).map (fun k => emitRow colGap (xSorted (rowCells yTol ws k)) none)

/-- Number of adjacent gaps exceeding `colGap`, starting from previous
position `lx`; measures the empty cells `emitRow` inserts. -/
def gapCountFrom (colGap : ℚ) : ℚ → List (ℚ × String) → Nat
  | _, [] => 0
  | lx, (x, _) :: rest => (if colGap < x - lx then 1 else 0) + gapCountFrom colGap x rest

/-- Number of adjacent gaps exceeding `colGap` in a row of `(x0, text)`
pairs (no virtual previous position before the first word). -/
def gapCount (colGap : ℚ) : List (ℚ × String) → Nat
  | [] => 0
  | (x, _) :: rest => gapCountFrom colGap x rest

/-! Table Resolver (`sanitize_table` and `extract_tables`, lines 12–156) -/

/-- One cell of `sanitize_table`: `"" if cell is None else str(cell).strip()`. -/
def sanitizeCell : Option String → String
  | none => ""
  | some s => pyStrip s

/-- Function `sanitize_table` (lines 12–14 of `app.py`). -/
def sanitize_table (rows : List (List (Option String))) : List (List String) :=
  rows.map (fun r => r.map sanitizeCell)

/-- The behaviour of the external extractors for one page.  Each field is the
outcome of the corresponding library call: `Except.error ()` models the call
raising an exception, `Except.ok v` models it returning `v`.  Structured
table cells are `Option String` (`none` is a null cell). -/
structure PdfOracle where
  camelotLattice : Except Unit (List (List (List (Option String))))
  camelotStream : Except Unit (List (List (List (Option String))))
  plumberTables : Except Unit (List (List (List (Option String))))
  plumberWords : Except Unit (List PWord)

/-- The per-table loop shared by the structured strategies (lines 106–115 and
125–134 of `app.py`): sanitize each table and keep it only when it has at
least one row; a kept table becomes an item with an absent description. -/
def mkTableItems (s ss : Option String) (tbls : List (List (List (Option String)))) :
    List TableItem :=
  tbls.filterMap (fun t =>
    let rows := sanitize_table t
    if rows.isEmpty then none
    else some ⟨sectionLabel s, ss, none, rows⟩)

/-- The Camelot strategy (lines 102–117 of `app.py`): lattice-mode first,
retried in stream mode when lattice yields zero tables; either call may
raise. -/
def camelotBranch (o : PdfOracle) (s ss : Option String) :
    Except Unit (List TableItem) := do
  let lat ← o.camelotLattice
  let tbls ← if lat.isEmpty then o.camelotStream else Except.ok lat
  Except.ok (mkTableItems s ss tbls)

/-- The pdfplumber `extract_tables` strategy (lines 122–136 of `app.py`). -/
def plumberBranch (o : PdfOracle) (s ss : Option String) :
    Except Unit (List TableItem) := do
  let ptables ← o.plumberTables
  Except.ok (mkTableItems s ss ptables)

/-- The word-clustering fallback (lines 141–154 of `app.py`): build a table
from the positioned words with the default tolerances (`y_tolerance=3`,
`col_gap=20`), and when it is non-empty emit one item whose description marks
the reconstruction. -/
def wordBranch (o : PdfOracle) (s ss : Option String) :
    Except Unit (List TableItem) := do
  let words ← o.plumberWords
  let table := build_table_from_words words 3 20
  if table.isEmpty then Except.ok []
  else
    Except.ok [({ sectionName := sectionLabel s
                  sub_section := ss
                  description := some "Reconstructed from word positions"
                  table_data := sanitize_table (table.map (fun r => r.map some)) } : TableItem)]

/-- Python's `try: ... except Exception: pass` around one strategy: an exception is
swallowed and contributes zero tables. -/
def stratCaught (m : Except Unit (List TableItem)) : List TableItem :=
  match m with
  | Except.ok r => r
  | Except.error _ => []

/-- Function `extract_tables` (lines 98–156 of `app.py`) as the fallback chain it
implements: each strategy runs under its own exception guard, and the first
strategy whose guarded result is non-empty is returned. -/
def extract_tables (o : PdfOracle) (s ss : Option String) : List TableItem :=
  if (stratCaught (camelotBranch o s ss)).isEmpty then
    if (stratCaught (plumberBranch o s ss)).isEmpty then stratCaught (wordBranch o s ss)
    else stratCaught (plumberBranch o s ss)
  else stratCaught (camelotBranch o s ss)

/-- Function `extract_tables` with its exception behaviour left visible: the same
chain written in the `Except` monad, where each strategy's exceptions are
caught by `Except.tryCatch` and turned into the empty result, mirroring the
three `try/except Exception: pass` blocks of the source. -/
def extractTablesE (o : PdfOracle) (s ss : Option String) :
    Except Unit (List TableItem) :=
  (Except.tryCatch (camelotBranch o s ss) (fun _ => Except.ok [])).bind (fun r1 =>
    if r1.isEmpty then
      (Except.tryCatch (plumberBranch o s ss) (fun _ => Except.ok [])).bind (fun r2 =>
        if r2.isEmpty then Except.tryCatch (wordBranch o s ss) (fun _ => Except.ok [])
        else Except.ok r2)
    else Except.ok r1)

/-- Whether the control flow of `extract_tables` reaches the word-clustering
fallback: it does exactly when both structured strategies contributed zero
tables. -/
def wordFallbackInvoked (o : PdfOracle) (s ss : Option String) : Bool :=
  (stratCaught (camelotBranch o s ss)).isEmpty
    && (stratCaught (plumberBranch o s ss)).isEmpty

/-! Chart Detector and Page Assembler (lines 159–204) -/

/-- Function `extract_charts` (lines 159–180 of `app.py`), over the number of embedded
images reported by `page.get_images(full=True)`. -/
def extract_charts (imageCount : Nat) (s ss : Option String) : List ChartItem :=
  if imageCount = 0 then [⟨sectionLabel s, ss, "Chart (vector or non-extractable)"⟩]
  else List.replicate imageCount ⟨sectionLabel s, ss, "Chart image detected"⟩

/-- One item of a page's content list. -/
inductive ContentItem where
  | para (p : Paragraph)
  | table (t : TableItem)
  | chart (c : ChartItem)
deriving DecidableEq

/-- The `section` field carried by any content item. -/
def ContentItem.sectionOf : ContentItem → String
  | .para p => p.sectionName
  | .table t => t.sectionName
  | .chart c => c.sectionName

/-- The external data for one page: its raw text blocks, the table-extractor
oracle, and the embedded-image count. -/
structure PageData where
  blocks : List RawBlock
  tables : PdfOracle
  images : Nat

/-- One page of the output document. -/
structure PageOut where
  page_number : Nat
  content : List ContentItem
deriving DecidableEq

/-- The per-page body of `parse_pdf` (lines 190–202 of `app.py`):
paragraphs, then tables, then charts, with the heading state threaded
through. -/
def processPage (pd : PageData) (s ss : Option String) :
    Except Unit (List ContentItem × Option String × Option String) :=
  (extract_text_and_headings pd.blocks s ss).bind (fun r =>
    Except.ok
      (r.1.map ContentItem.para
          ++ (extract_tables pd.tables r.2.1 r.2.2).map ContentItem.table
          ++ (extract_charts pd.images r.2.1 r.2.2).map ContentItem.chart,
        r.2.1, r.2.2))

/-- The page loop of `parse_pdf`, with 1-based page numbering. -/
def parsePages : List PageData → Nat → Option String → Option String →
    Except Unit (List PageOut)
  | [], _, _, _ => Except.ok []
  | pd :: rest, n, s, ss =>
    (processPage pd s ss).bind (fun r =>
      (parsePages rest (n + 1) r.2.1 r.2.2).bind (fun tail =>
        Except.ok (⟨n, r.1⟩ :: tail)))

/-- Function `parse_pdf` (lines 183–204 of `app.py`). -/
def parse_pdf (pages : List PageData) : Except Unit (List PageOut) :=
  parsePages pages 1 none none


/-! Heading Classifier lemmas -/

theorem classifyBlocks_cons_section {b : Block} (bs : List Block) (s ss : Option String)
    (h : isSectionHeading b = true) :
    classifyBlocks (b :: bs) s ss = classifyBlocks bs (some b.text) none := by
  simp [classifyBlocks, h]

theorem classifyBlocks_cons_sub {b : Block} (bs : List Block) (s ss : Option String)
    (h1 : isSectionHeading b = false) (h2 : isSubHeading b = true) :
    classifyBlocks (b :: bs) s ss = classifyBlocks bs s (some b.text) := by
  simp [classifyBlocks, h1, h2]

theorem classifyBlocks_cons_para {b : Block} (bs : List Block) (s ss : Option String)
    (h1 : isSectionHeading b = false) (h2 : isSubHeading b = false) :
    classifyBlocks (b :: bs) s ss
      = (⟨sectionLabel s, ss, b.text⟩ :: (classifyBlocks bs s ss).1,
          (classifyBlocks bs s ss).2) := by
  simp [classifyBlocks, h1, h2]

theorem mem_classifyBlocks_text {bs : List Block} {s ss : Option String} {p : Paragraph}
    (hp : p ∈ (classifyBlocks bs s ss).1) :
    ∃ b ∈ bs, p.text = b.text ∧ isSectionHeading b = false ∧ isSubHeading b = false := by
  induction bs generalizing s ss with
  | nil => simp [classifyBlocks] at hp
  | cons b rest ih =>
    cases h1 : isSectionHeading b with
    | true =>
      rw [classifyBlocks_cons_section rest s ss h1] at hp
      obtain ⟨b2, hb2, hrest⟩ := ih hp
      exact ⟨b2, List.mem_cons_of_mem _ hb2, hrest⟩
    | false =>
      cases h2 : isSubHeading b with
      | true =>
        rw [classifyBlocks_cons_sub rest s ss h1 h2] at hp
        obtain ⟨b2, hb2, hrest⟩ := ih hp
        exact ⟨b2, List.mem_cons_of_mem _ hb2, hrest⟩
      | false =>
        rw [classifyBlocks_cons_para rest s ss h1 h2] at hp
        rcases List.mem_cons.mp hp with hph | hp2
        · exact ⟨b, List.mem_cons_self _ _, by simp [hph], h1, h2⟩
        · obtain ⟨b2, hb2, hrest⟩ := ih hp2
          exact ⟨b2, List.mem_cons_of_mem _ hb2, hrest⟩

theorem classifyBlocks_state_para {bs : List Block} :
    ∀ {s ss : Option String},
      (∀ b ∈ bs, isSectionHeading b = false ∧ isSubHeading b = false) →
      (classifyBlocks bs s ss).2 = (s, ss) := by
  induction bs with
  | nil => intro s ss _; rfl
  | cons b rest ih =>
    intro s ss h
    obtain ⟨h1, h2⟩ := h b (List.mem_cons_self _ _)
    rw [classifyBlocks_cons_para rest s ss h1 h2]
    exact ih (fun b2 hb2 => h b2 (List.mem_cons_of_mem _ hb2))

theorem classifyBlocks_sectionState {bs : List Block} :
    ∀ {s ss : Option String},
      (∀ b ∈ bs, isSectionHeading b = false) → (classifyBlocks bs s ss).2.1 = s := by
  induction bs with
  | nil => intro s ss _; rfl
  | cons b rest ih =>
    intro s ss h
    have h1 := h b (List.mem_cons_self _ _)
    cases h2 : isSubHeading b with
    | true =>
      rw [classifyBlocks_cons_sub rest s ss h1 h2]
      exact ih (fun b2 hb2 => h b2 (List.mem_cons_of_mem _ hb2))
    | false =>
      rw [classifyBlocks_cons_para rest s ss h1 h2]
      exact ih (fun b2 hb2 => h b2 (List.mem_cons_of_mem _ hb2))

theorem classifyBlocks_unknown {bs : List Block} :
    ∀ {ss : Option String},
      (∀ b ∈ bs, isSectionHeading b = false) →
      ∀ p ∈ (classifyBlocks bs none ss).1, p.sectionName = "Unknown" := by
  induction bs with
  | nil => intro ss _ p hp; simp [classifyBlocks] at hp
  | cons b rest ih =>
    intro ss h p hp
    have h1 := h b (List.mem_cons_self _ _)
    cases h2 : isSubHeading b with
    | true =>
      rw [classifyBlocks_cons_sub rest none ss h1 h2] at hp
      exact ih (fun b2 hb2 => h b2 (List.mem_cons_of_mem _ hb2)) p hp
    | false =>
      rw [classifyBlocks_cons_para rest none ss h1 h2] at hp
      rcases List.mem_cons.mp hp with hph | hp2
      · simp [hph, sectionLabel]
      · exact ih (fun b2 hb2 => h b2 (List.mem_cons_of_mem _ hb2)) p hp2

theorem isSectionHeading_iff (b : Block) :
    isSectionHeading b = true
      ↔ (16 ≤ b.largest_font ∨ (14 ≤ b.largest_font ∧ b.is_bold = true)) := by
  simp [isSectionHeading, Bool.or_eq_true, Bool.and_eq_true, decide_eq_true_eq]

theorem isSubHeading_iff (b : Block) :
    isSubHeading b = true
      ↔ ((13 ≤ b.largest_font ∧ b.largest_font < 16)
          ∨ (23/2 ≤ b.largest_font ∧ b.largest_font < 13 ∧ b.is_bold = true)
          ∨ (pyWordCount b.text ≤ 4 ∧ b.is_bold = true)) := by
  simp only [isSubHeading, Bool.or_eq_true, Bool.and_eq_true, decide_eq_true_eq]
  rw [show (mkRat 23 2 : ℚ) = 23/2 from by rw [Rat.mkRat_eq_div]; norm_num]
  tauto

/-- C1: a block is classified as a section heading exactly when
`largest_font >= 16`, or `largest_font >= 14` and the block is bold; such a
block sets `current_section` to its text, clears `current_subsection`, and is
consumed, so — when no other block carries the same text — no emitted
paragraph carries that block's text. -/
theorem section_heading_classification (b : Block) (bs : List Block) (s ss : Option String) :
    (isSectionHeading b = true
        ↔ (16 ≤ b.largest_font ∨ (14 ≤ b.largest_font ∧ b.is_bold = true)))
    ∧ (isSectionHeading b = true →
        classifyBlocks (b :: bs) s ss = classifyBlocks bs (some b.text) none)
    ∧ (isSectionHeading b = true → (∀ b2 ∈ bs, b2.text ≠ b.text) →
        ∀ p ∈ (classifyBlocks (b :: bs) s ss).1, p.text ≠ b.text) := by
  refine ⟨isSectionHeading_iff b, fun h => classifyBlocks_cons_section bs s ss h, ?_⟩
  · intro h hne p hp
    rw [classifyBlocks_cons_section bs s ss h] at hp
    obtain ⟨b2, hb2, htext, _⟩ := mem_classifyBlocks_text hp
    rw [htext]
    exact hne b2 hb2

theorem section_heading_classification_witness :
    classifyBlocks [⟨"Intro", some (0, 0, 5, 1), 18, false⟩,
        ⟨"Hello world.", some (0, 2, 5, 3), 11, false⟩] none none
      = classifyBlocks [⟨"Hello world.", some (0, 2, 5, 3), 11, false⟩] (some "Intro") none
    ∧ ("Hello world." : String) ≠ "Intro" := by
  constructor
  · exact (section_heading_classification ⟨"Intro", some (0, 0, 5, 1), 18, false⟩
      [⟨"Hello world.", some (0, 2, 5, 3), 11, false⟩] none none).2.1 (by decide)
  · have heval : classifyBlocks [⟨"Intro", some (0, 0, 5, 1), 18, false⟩,
        ⟨"Hello world.", some (0, 2, 5, 3), 11, false⟩] none none
        = ([⟨"Intro", none, "Hello world."⟩], some "Intro", none) := by decide
    have h3 := (section_heading_classification ⟨"Intro", some (0, 0, 5, 1), 18, false⟩
      [⟨"Hello world.", some (0, 2, 5, 3), 11, false⟩] none none).2.2 (by decide) (by decide)
      ⟨"Intro", none, "Hello world."⟩ (by rw [heval]; exact List.mem_singleton.mpr rfl)
    exact h3

/-- C2: current_section and current_subsection persist unchanged across
paragraph blocks (and current_section also across sub-headings); a new
section heading resets the subsection to absent; and a block is classified as
a sub-section heading exactly when `13 <= largest_font < 16`, or
`11.5 <= largest_font < 13` and bold, or it has at most 4 words and is bold,
provided it is not a section heading. -/
theorem heading_state_invariant (b : Block) (bs : List Block) (s ss : Option String) :
    ((isSectionHeading b = false ∧ isSubHeading b = true) ↔
      (((13 ≤ b.largest_font ∧ b.largest_font < 16)
          ∨ (23/2 ≤ b.largest_font ∧ b.largest_font < 13 ∧ b.is_bold = true)
          ∨ (pyWordCount b.text ≤ 4 ∧ b.is_bold = true))
        ∧ ¬(16 ≤ b.largest_font ∨ (14 ≤ b.largest_font ∧ b.is_bold = true))))
    ∧ (isSectionHeading b = true →
        classifyBlocks (b :: bs) s ss = classifyBlocks bs (some b.text) none)
    ∧ (isSectionHeading b = false → isSubHeading b = true →
        classifyBlocks (b :: bs) s ss = classifyBlocks bs s (some b.text))
    ∧ ((∀ b2 ∈ bs, isSectionHeading b2 = false ∧ isSubHeading b2 = false) →
        (classifyBlocks bs s ss).2 = (s, ss))
    ∧ ((∀ b2 ∈ bs, isSectionHeading b2 = false) → (classifyBlocks bs s ss).2.1 = s) := by
  refine ⟨?_, fun h => classifyBlocks_cons_section bs s ss h,
    fun h1 h2 => classifyBlocks_cons_sub bs s ss h1 h2,
    fun h => classifyBlocks_state_para h,
    fun h => classifyBlocks_sectionState h⟩
  constructor
  · rintro ⟨h1, h2⟩
    refine ⟨(isSubHeading_iff b).mp h2, fun hc => ?_⟩
    rw [← isSectionHeading_iff b] at hc
    rw [hc] at h1
    exact Bool.true_eq_false.mp h1
  · rintro ⟨h2, hc⟩
    rw [← isSectionHeading_iff b] at hc
    exact ⟨Bool.eq_false_iff.mpr hc, (isSubHeading_iff b).mpr h2⟩

theorem heading_state_invariant_witness :
    classifyBlocks [⟨"Overview", some (0, 0, 5, 1), 13, false⟩,
        ⟨"Hello world.", some (0, 2, 5, 3), 11, false⟩] none none
      = classifyBlocks [⟨"Hello world.", some (0, 2, 5, 3), 11, false⟩] none (some "Overview")
    ∧ (classifyBlocks [⟨"Hello world.", some (0, 2, 5, 3), 11, false⟩]
          (some "A") (some "B")).2 = (some "A", some "B") := by
  constructor
  · exact (heading_state_invariant ⟨"Overview", some (0, 0, 5, 1), 13, false⟩
      [⟨"Hello world.", some (0, 2, 5, 3), 11, false⟩] none none).2.2.1
      (by decide) (by decide)
  · exact (heading_state_invariant ⟨"Overview", some (0, 0, 5, 1), 13, false⟩
      [⟨"Hello world.", some (0, 2, 5, 3), 11, false⟩] (some "A") (some "B")).2.2.2.1
      (by decide)


/-! Word-Cluster Table Builder lemmas -/

theorem emitRow_cons_none (colGap x : ℚ) (t : String) (rest : List (ℚ × String)) :
    emitRow colGap ((x, t) :: rest) none = t :: emitRow colGap rest (some x) := rfl

theorem emitRow_cons_some (colGap x : ℚ) (t : String) (rest : List (ℚ × String)) (lx : ℚ) :
    emitRow colGap ((x, t) :: rest) (some lx)
      = if colGap < x - lx then "" :: t :: emitRow colGap rest (some x)
        else t :: emitRow colGap rest (some x) := rfl

theorem emitRow_mem {colGap : ℚ} :
    ∀ (cells : List (ℚ × String)) (x : ℚ) (t : String),
      (x, t) ∈ cells → ∀ last, t ∈ emitRow colGap cells last
  | [], x, t, h => by simp at h
  | (cx, ct) :: rest, x, t, h => by
    intro last
    rcases List.mem_cons.mp h with hh | hmem
    · have ht : t = ct := congrArg Prod.snd hh
      cases last with
      | none =>
        rw [emitRow_cons_none]
        exact ht ▸ List.mem_cons_self _ _
      | some lx =>
        rw [emitRow_cons_some]
        split
        · exact List.mem_cons_of_mem _ (ht ▸ List.mem_cons_self _ _)
        · exact ht ▸ List.mem_cons_self _ _
    · have hrec := @emitRow_mem colGap rest x t hmem (some cx)
      cases last with
      | none =>
        rw [emitRow_cons_none]
        exact List.mem_cons_of_mem _ hrec
      | some lx =>
        rw [emitRow_cons_some]
        split
        · exact List.mem_cons_of_mem _ (List.mem_cons_of_mem _ hrec)
        · exact List.mem_cons_of_mem _ hrec

theorem emitRow_filter {colGap : ℚ} :
    ∀ (cells : List (ℚ × String)), (∀ c ∈ cells, c.2 ≠ "") → ∀ last,
      (emitRow colGap cells last).filter (fun t => t ≠ "") = cells.map Prod.snd
  | [], _, last => by cases last <;> rfl
  | (cx, ct) :: rest, h, last => by
    have hct : ct ≠ "" := h (cx, ct) (List.mem_cons_self _ _)
    have hrec := @emitRow_filter colGap rest
      (fun c hc => h c (List.mem_cons_of_mem _ hc)) (some cx)
    simp only [ne_eq, decide_not] at hrec
    cases last with
    | none =>
      rw [emitRow_cons_none]
      simp [List.filter_cons, hct, hrec]
    | some lx =>
      rw [emitRow_cons_some]
      split
      · simp [List.filter_cons, hct, hrec]
      · simp [List.filter_cons, hct, hrec]

theorem emitRow_length_from {colGap : ℚ} :
    ∀ (cells : List (ℚ × String)) (lx : ℚ),
      (emitRow colGap cells (some lx)).length
        = cells.length + gapCountFrom colGap lx cells
  | [], _ => rfl
  | (cx, ct) :: rest, lx => by
    have hrec := @emitRow_length_from colGap rest cx
    rw [emitRow_cons_some]
    by_cases hgap : colGap < cx - lx
    · simp only [gapCountFrom, if_pos hgap, List.length_cons, hrec]
      omega
    · simp only [gapCountFrom, if_neg hgap, List.length_cons, hrec]
      omega

theorem emitRow_length {colGap : ℚ} :
    ∀ (cells : List (ℚ × String)),
      (emitRow colGap cells none).length = cells.length + gapCount colGap cells
  | [] => rfl
  | (cx, ct) :: rest => by
    rw [emitRow_cons_none]
    simp only [List.length_cons, @emitRow_length_from colGap rest cx, gapCount]
    omega

theorem mem_keptCells {yTol : ℚ} {ws : List PWord} {w : PWord}
    (hw : w ∈ ws) (ht : pyStrip w.text ≠ "") :
    (rowKeyOf yTol w.top, w.x0, pyStrip w.text) ∈ keptCells yTol ws := by
  unfold keptCells
  exact List.mem_filterMap.mpr ⟨w, hw, by simp [ht]⟩

theorem keptCells_text {yTol : ℚ} {ws : List PWord} {k x : ℚ} {t : String}
    (h : (k, x, t) ∈ keptCells yTol ws) :
    t ≠ "" ∧ ∃ w ∈ ws, t = pyStrip w.text := by
  unfold keptCells at h
  obtain ⟨w, hw, heq⟩ := List.mem_filterMap.mp h
  by_cases hts : pyStrip w.text = ""
  · simp [hts] at heq
  · simp only [hts, if_false, Option.some.injEq, Prod.mk.injEq] at heq
    obtain ⟨-, -, h3⟩ := heq
    exact ⟨h3 ▸ hts, w, hw, h3.symm⟩

theorem mem_rowKeys {yTol : ℚ} {ws : List PWord} {k : ℚ} :
    k ∈ rowKeys yTol ws ↔ k ∈ (keptCells yTol ws).map Prod.fst := by
  unfold rowKeys
  rw [(List.perm_insertionSort _ _).mem_iff, List.mem_dedup]

theorem mem_rowCells {yTol : ℚ} {ws : List PWord} {k x : ℚ} {t : String} :
    (x, t) ∈ rowCells yTol ws k ↔ (k, x, t) ∈ keptCells yTol ws := by
  unfold rowCells
  constructor
  · intro h
    obtain ⟨c, hc, hceq⟩ := List.mem_map.mp h
    obtain ⟨hmem, hk⟩ := List.mem_filter.mp hc
    obtain ⟨c1, c2, c3⟩ := c
    simp only [decide_eq_true_eq] at hk
    obtain ⟨hx, ht⟩ := Prod.mk.injEq .. ▸ hceq
    subst hk hx ht
    exact hmem
  · intro h
    exact List.mem_map.mpr ⟨(k, x, t), List.mem_filter.mpr ⟨h, by simp⟩, rfl⟩

theorem xSorted_mem {cells : List (ℚ × String)} {c : ℚ × String} :
    c ∈ xSorted cells ↔ c ∈ cells :=
  (List.perm_insertionSort _ _).mem_iff

theorem build_table_rows {ws : List PWord} {yTol colGap : ℚ} {row : List String}
    (h : row ∈ build_table_from_words ws yTol colGap) :
    ∃ k ∈ rowKeys yTol ws,
      row = emitRow colGap (xSorted (rowCells yTol ws k)) none := by
  unfold build_table_from_words at h
  split at h
  · simp at h
  · obtain ⟨k, hk, heq⟩ := List.mem_map.mp h
    exact ⟨k, hk, heq.symm⟩

theorem rowCells_ne_nil {yTol : ℚ} {ws : List PWord} {k : ℚ}
    (hk : k ∈ rowKeys yTol ws) : rowCells yTol ws k ≠ [] := by
  rw [mem_rowKeys] at hk
  obtain ⟨c, hc, hck⟩ := List.mem_map.mp hk
  obtain ⟨c1, cx, ct⟩ := c
  intro hnil
  have hmem : (cx, ct) ∈ rowCells yTol ws k := by
    apply mem_rowCells.mpr
    have hck2 : c1 = k := hck
    rw [← hck2]
    exact hc
  rw [hnil] at hmem
  simp at hmem

/-- C10: the Word-Cluster Table Builder drops words with empty or
whitespace-only text before clustering — a non-empty all-whitespace input
yields an empty table — and every emitted row starts with a real word's
stripped text, never with an inserted empty cell. -/
theorem word_cluster_drops_blank_words (ws : List PWord) (yTol colGap : ℚ) :
    (ws ≠ [] → (∀ w ∈ ws, pyStrip w.text = "") →
      build_table_from_words ws yTol colGap = [])
    ∧ (∀ row ∈ build_table_from_words ws yTol colGap,
        ∃ t, row.head? = some t ∧ t ≠ "" ∧ ∃ w ∈ ws, t = pyStrip w.text) := by
  constructor
  · intro _ hall
    have hkept : keptCells yTol ws = [] := by
      unfold keptCells
      rw [List.filterMap_eq_nil_iff]
      intro w hw
      simp [hall w hw]
    unfold build_table_from_words rowKeys
    rw [hkept]
    split <;> simp [List.insertionSort]
  · intro row hrow
    obtain ⟨k, hk, heq⟩ := build_table_rows hrow
    have hne2 : rowCells yTol ws k ≠ [] := rowCells_ne_nil hk
    obtain ⟨c, hcmem⟩ := List.exists_mem_of_ne_nil _ hne2
    have hxne : xSorted (rowCells yTol ws k) ≠ [] :=
      List.ne_nil_of_mem (xSorted_mem.mpr hcmem)
    obtain ⟨⟨x1, t1⟩, rest, hx⟩ := List.exists_cons_of_ne_nil hxne
    have hmem1 : (x1, t1) ∈ rowCells yTol ws k :=
      xSorted_mem.mp (hx ▸ List.mem_cons_self _ _)
    obtain ⟨htne, w, hw, htw⟩ := keptCells_text (mem_rowCells.mp hmem1)
    refine ⟨t1, ?_, htne, w, hw, htw⟩
    rw [heq, hx, emitRow_cons_none]
    rfl

theorem word_cluster_drops_blank_words_witness :
    ([⟨" ", 0, 0⟩] : List PWord) ≠ []
    ∧ build_table_from_words [⟨" ", 0, 0⟩] 3 20 = [] :=
  ⟨by decide, (word_cluster_drops_blank_words [⟨" ", 0, 0⟩] 3 20).1 (by decide) (by decide)⟩


/-- C5 is false as stated: the words at tops `1` and `2` differ by less than
`y_tolerance = 3`, yet `round(1/3) = 0` and `round(2/3) = 1`, so they get
different row keys (`0` and `3`) and land in two distinct rows. -/
theorem row_tolerance_counterexample :
    ((2 : ℚ) - 1 < 3)
    ∧ build_table_from_words [⟨"a", 0, 1⟩, ⟨"b", 0, 2⟩] 3 20 = [["a"], ["b"]]
    ∧ ¬ ∃ row ∈ build_table_from_words [⟨"a", 0, 1⟩, ⟨"b", 0, 2⟩] 3 20,
        "a" ∈ row ∧ "b" ∈ row := by
  have heval : build_table_from_words [⟨"a", 0, 1⟩, ⟨"b", 0, 2⟩] 3 20 = [["a"], ["b"]] := by
    norm_num [build_table_from_words, rowKeys, keptCells, rowCells, xSorted, emitRow,
      rowKeyOf, pyRound, pyStrip, stripChars, List.insertionSort, List.orderedInsert,
      List.dedup, List.pwFilter, List.filterMap]
    decide
  refine ⟨by norm_num, heval, ?_⟩
  rw [heval]
  decide

/-- C5 (amended): the row key is the rounded quotient `top / y_tolerance`
rescaled, with Python round-half-to-even; two kept words whose quotients
round equally receive the same row key and their stripped texts appear in
the same output row.  (Tops merely differing by less than `y_tolerance` can
round differently and land in different rows.) -/
theorem row_quantization_same_key (ws : List PWord) (yTol colGap : ℚ) (w1 w2 : PWord)
    (h1 : w1 ∈ ws) (h2 : w2 ∈ ws)
    (ht1 : pyStrip w1.text ≠ "") (ht2 : pyStrip w2.text ≠ "")
    (hk : pyRound (w1.top / yTol) = pyRound (w2.top / yTol)) :
    rowKeyOf yTol w1.top = rowKeyOf yTol w2.top
    ∧ ∃ row ∈ build_table_from_words ws yTol colGap,
        pyStrip w1.text ∈ row ∧ pyStrip w2.text ∈ row := by
  have hkey : rowKeyOf yTol w1.top = rowKeyOf yTol w2.top := by
    unfold rowKeyOf
    rw [hk]
  refine ⟨hkey, ?_⟩
  have hc1 : (rowKeyOf yTol w1.top, w1.x0, pyStrip w1.text) ∈ keptCells yTol ws :=
    mem_keptCells h1 ht1
  have hc2 : (rowKeyOf yTol w1.top, w2.x0, pyStrip w2.text) ∈ keptCells yTol ws := by
    rw [hkey]
    exact mem_keptCells h2 ht2
  have hkmem : rowKeyOf yTol w1.top ∈ rowKeys yTol ws :=
    mem_rowKeys.mpr (List.mem_map.mpr ⟨_, hc1, rfl⟩)
  have hws : ws.isEmpty = false := by
    cases ws
    · simp at h1
    · rfl
  refine ⟨emitRow colGap (xSorted (rowCells yTol ws (rowKeyOf yTol w1.top))) none, ?_, ?_, ?_⟩
  · unfold build_table_from_words
    rw [hws]
    simp only [Bool.false_eq_true, if_false]
    exact List.mem_map.mpr ⟨_, hkmem, rfl⟩
  · exact emitRow_mem _ _ _ (xSorted_mem.mpr (mem_rowCells.mpr hc1)) none
  · exact emitRow_mem _ _ _ (xSorted_mem.mpr (mem_rowCells.mpr hc2)) none

theorem row_quantization_same_key_witness :
    ∃ row ∈ build_table_from_words [⟨"a", 0, 0⟩, ⟨"b", 5, 1⟩] 3 20,
      pyStrip "a" ∈ row ∧ pyStrip "b" ∈ row :=
  (row_quantization_same_key [⟨"a", 0, 0⟩, ⟨"b", 5, 1⟩] 3 20 ⟨"a", 0, 0⟩ ⟨"b", 5, 1⟩
    (by decide) (by decide) (by decide) (by decide) (by norm_num [pyRound])).2

/-- C6 is false as stated: a row of words at x0 values 0, 10, 50 with
`col_gap = 20` yields 4 cells — the three word texts plus one inserted empty
cell before the word at x0 = 50 — not 3 cells. -/
theorem column_gap_counterexample :
    build_table_from_words [⟨"a", 0, 0⟩, ⟨"b", 10, 0⟩, ⟨"c", 50, 0⟩] 3 20
      = [["a", "b", "", "c"]]
    ∧ ¬ ((["a", "b", "", "c"] : List String).length = 3) := by
  constructor
  · norm_num [build_table_from_words, rowKeys, keptCells, rowCells, xSorted, emitRow,
      rowKeyOf, pyRound, pyStrip, stripChars, List.insertionSort, List.orderedInsert,
      List.dedup, List.pwFilter, List.filterMap]
    decide
  · decide

/-- C6 (amended): within each output row of the Word-Cluster Table Builder,
words are emitted sorted by x0 ascending, and exactly one empty cell is
inserted per adjacent x0 gap exceeding `col_gap`, regardless of the gap's
magnitude; in particular x0 values [0, 10, 50] with `col_gap = 20` give one
row of exactly 4 cells: the three word texts plus one empty cell before the
word at x0 = 50. -/
theorem column_gap_one_empty_cell (ws : List PWord) (yTol colGap : ℚ)
    (row : List String) (cells : List (ℚ × String)) :
    (row ∈ build_table_from_words ws yTol colGap →
      ∃ k ∈ rowKeys yTol ws,
        row = emitRow colGap (xSorted (rowCells yTol ws k)) none
        ∧ List.Sorted (fun a b => a.1 ≤ b.1) (xSorted (rowCells yTol ws k)))
    ∧ ((∀ c ∈ cells, c.2 ≠ "") →
        (emitRow colGap cells none).filter (fun t => t ≠ "") = cells.map Prod.snd
        ∧ (emitRow colGap cells none).length = cells.length + gapCount colGap cells)
    ∧ build_table_from_words [⟨"a", 0, 0⟩, ⟨"b", 10, 0⟩, ⟨"c", 50, 0⟩] 3 20
        = [["a", "b", "", "c"]] := by
  refine ⟨?_, ?_, ?_⟩
  · intro h
    obtain ⟨k, hk, heq⟩ := build_table_rows h
    exact ⟨k, hk, heq, List.sorted_insertionSort _ _⟩
  · intro hc
    exact ⟨emitRow_filter _ hc none, emitRow_length _⟩
  · norm_num [build_table_from_words, rowKeys, keptCells, rowCells, xSorted, emitRow,
      rowKeyOf, pyRound, pyStrip, stripChars, List.insertionSort, List.orderedInsert,
      List.dedup, List.pwFilter, List.filterMap]
    decide

theorem column_gap_one_empty_cell_witness :
    (emitRow 20 [((0 : ℚ), "a"), (10, "b"), (50, "c")] none).filter (fun t => t ≠ "")
        = [((0 : ℚ), "a"), (10, "b"), (50, "c")].map Prod.snd
    ∧ (emitRow 20 [((0 : ℚ), "a"), (10, "b"), (50, "c")] none).length
        = [((0 : ℚ), "a"), (10, "b"), (50, "c")].length
            + gapCount 20 [((0 : ℚ), "a"), (10, "b"), (50, "c")] :=
  (column_gap_one_empty_cell [] 3 20 [] [((0 : ℚ), "a"), (10, "b"), (50, "c")]).2.1
    (by decide)


/-! Sanitization lemmas -/

theorem dropWhile_cons_head_false {p : Char → Bool} :
    ∀ (l : List Char) (c : Char) (cs : List Char),
      l.dropWhile p = c :: cs → p c = false := by
  intro l
  induction l with
  | nil => intro c cs h; simp at h
  | cons a t ih =>
    intro c cs h
    rw [List.dropWhile_cons] at h
    split at h
    · exact ih c cs h
    · rename_i hpa
      have hac : a = c := (List.cons.injEq .. ▸ h).1
      rw [← hac]
      exact Bool.eq_false_iff.mpr hpa

theorem dropWhile_of_head_false {p : Char → Bool} {c : Char} {cs : List Char}
    (h : p c = false) : (c :: cs).dropWhile p = c :: cs := by
  rw [List.dropWhile_cons, if_neg]
  simp [h]

theorem getLast?_dropWhile (p : Char → Bool) :
    ∀ (l : List Char), l.dropWhile p ≠ [] →
      (l.dropWhile p).getLast? = l.getLast? := by
  intro l
  induction l with
  | nil => intro h; exact absurd rfl h
  | cons a t ih =>
    intro h
    by_cases hpa : p a = true
    · rw [List.dropWhile_cons, if_pos hpa] at h ⊢
      have ht : t ≠ [] := by
        intro h0
        rw [h0] at h
        exact h rfl
      rw [ih h]
      cases t with
      | nil => exact absurd rfl ht
      | cons b bs => rw [List.getLast?_cons_cons]
    · rw [List.dropWhile_cons, if_neg hpa]

theorem stripChars_idem (cs : List Char) :
    stripChars (stripChars cs) = stripChars cs := by
  unfold stripChars
  cases hBnil : (cs.dropWhile Char.isWhitespace).reverse.dropWhile Char.isWhitespace with
  | nil => simp [hBnil]
  | cons b bs =>
    have hb : Char.isWhitespace b = false :=
      dropWhile_cons_head_false _ b bs hBnil
    have hBne : (cs.dropWhile Char.isWhitespace).reverse.dropWhile Char.isWhitespace ≠ [] := by
      rw [hBnil]
      exact List.cons_ne_nil _ _
    cases hAnil : cs.dropWhile Char.isWhitespace with
    | nil =>
      rw [hAnil] at hBnil
      simp at hBnil
    | cons a as =>
      have ha : Char.isWhitespace a = false := dropWhile_cons_head_false cs a as hAnil
      have hhead : ((b :: bs) : List Char).reverse.head? = some a := by
        rw [List.head?_reverse, ← hBnil,
          getLast?_dropWhile Char.isWhitespace _ hBne, List.getLast?_reverse, hAnil]
        rfl
      cases hrev : ((b :: bs) : List Char).reverse with
      | nil => rw [hrev] at hhead; simp at hhead
      | cons r rs =>
        have hra : r = a := by
          rw [hrev] at hhead
          simpa using hhead
        rw [dropWhile_of_head_false (hra.symm ▸ ha), ← hrev, List.reverse_reverse,
          dropWhile_of_head_false hb]

theorem pyStrip_idem (s : String) : pyStrip (pyStrip s) = pyStrip s := by
  unfold pyStrip
  rw [show (String.mk (stripChars s.data)).data = stripChars s.data from rfl,
    stripChars_idem]

theorem sanitize_table_cells {rows : List (List (Option String))} {row : List String}
    {c : String} (hrow : row ∈ sanitize_table rows) (hc : c ∈ row) :
    pyStrip c = c := by
  unfold sanitize_table at hrow
  obtain ⟨r0, _, hmap⟩ := List.mem_map.mp hrow
  rw [← hmap] at hc
  obtain ⟨v, _, hveq⟩ := List.mem_map.mp hc
  rw [← hveq]
  cases v with
  | none => rfl
  | some t => exact pyStrip_idem t


/-! Table Resolver lemmas -/

theorem exceptBind_ok {α β : Type} (a : α) (f : α → Except Unit β) :
    (Except.ok a : Except Unit α).bind f = f a := rfl

theorem exceptBind_error {α β : Type} (e : Unit) (f : α → Except Unit β) :
    (Except.error e : Except Unit α).bind f = Except.error e := rfl

theorem bindDo_ok {α β : Type} (a : α) (f : α → Except Unit β) :
    ((Except.ok a : Except Unit α) >>= f) = f a := rfl

theorem bindDo_error {α β : Type} (e : Unit) (f : α → Except Unit β) :
    ((Except.error e : Except Unit α) >>= f) = Except.error e := rfl

theorem isEmpty_false_of_ne {α : Type} {l : List α} (h : l ≠ []) : l.isEmpty = false := by
  cases l
  · exact absurd rfl h
  · rfl

theorem stratCaught_tryCatch (e : Except Unit (List TableItem)) :
    Except.tryCatch e (fun _ => Except.ok []) = Except.ok (stratCaught e) := by
  cases e <;> rfl

theorem mem_mkTableItems {s ss : Option String}
    {tbls : List (List (List (Option String)))} {item : TableItem}
    (h : item ∈ mkTableItems s ss tbls) :
    item.description = none ∧ item.sectionName = sectionLabel s
      ∧ ∃ src, item.table_data = sanitize_table src := by
  unfold mkTableItems at h
  obtain ⟨t, ht, heq⟩ := List.mem_filterMap.mp h
  by_cases he : sanitize_table t = []
  · simp [he] at heq
  · simp [he] at heq
    subst heq
    exact ⟨rfl, rfl, t, rfl⟩

theorem camelot_shape (o : PdfOracle) (s ss : Option String) :
    ∃ tbls, stratCaught (camelotBranch o s ss) = mkTableItems s ss tbls := by
  unfold camelotBranch
  cases hlat : o.camelotLattice with
  | error e => exact ⟨[], rfl⟩
  | ok lat =>
    by_cases hl : lat = []
    · cases hst : o.camelotStream with
      | error e => exact ⟨[], by simp [stratCaught, bindDo_ok, bindDo_error, hl, mkTableItems]⟩
      | ok st => exact ⟨st, by simp [stratCaught, bindDo_ok, hl]⟩
    · exact ⟨lat, by simp [stratCaught, bindDo_ok, hl]⟩

theorem plumber_shape (o : PdfOracle) (s ss : Option String) :
    ∃ tbls, stratCaught (plumberBranch o s ss) = mkTableItems s ss tbls := by
  unfold plumberBranch
  cases hp : o.plumberTables with
  | error e => exact ⟨[], rfl⟩
  | ok pt => exact ⟨pt, rfl⟩

theorem word_shape (o : PdfOracle) (s ss : Option String) :
    ∀ item ∈ stratCaught (wordBranch o s ss),
      item.description = some "Reconstructed from word positions"
        ∧ item.sectionName = sectionLabel s
        ∧ ∃ src, item.table_data = sanitize_table src := by
  intro item h
  unfold wordBranch at h
  cases hw : o.plumberWords with
  | error e => simp [hw, stratCaught, bindDo_error] at h
  | ok words =>
    by_cases ht : build_table_from_words words 3 20 = []
    · simp [hw, stratCaught, bindDo_ok, ht] at h
    · have hcond : ¬((build_table_from_words words 3 20).isEmpty = true) := by
        simp [ht]
      simp only [hw, bindDo_ok] at h
      rw [if_neg hcond] at h
      simp [stratCaught] at h
      subst h
      exact ⟨rfl, rfl, _, rfl⟩

theorem extract_tables_cases {o : PdfOracle} {s ss : Option String} {item : TableItem}
    (h : item ∈ extract_tables o s ss) :
    item ∈ stratCaught (camelotBranch o s ss)
      ∨ item ∈ stratCaught (plumberBranch o s ss)
      ∨ item ∈ stratCaught (wordBranch o s ss) := by
  unfold extract_tables at h
  by_cases h1 : (stratCaught (camelotBranch o s ss)).isEmpty
  · rw [if_pos h1] at h
    by_cases h2 : (stratCaught (plumberBranch o s ss)).isEmpty
    · rw [if_pos h2] at h
      exact Or.inr (Or.inr h)
    · rw [if_neg h2] at h
      exact Or.inr (Or.inl h)
  · rw [if_neg h1] at h
    exact Or.inl h

/-- C4: whatever the external extractors do — including every combination of
raised exceptions — the Table Resolver never raises: the `Except`-level chain
always returns `ok`, with the pure fallback-chain value as its result. -/
theorem table_resolver_never_raises (o : PdfOracle) (s ss : Option String) :
    extractTablesE o s ss = Except.ok (extract_tables o s ss) := by
  unfold extractTablesE extract_tables
  simp only [stratCaught_tryCatch, exceptBind_ok]
  by_cases h1 : (stratCaught (camelotBranch o s ss)).isEmpty
  · by_cases h2 : (stratCaught (plumberBranch o s ss)).isEmpty
    · simp [h1, h2]
    · simp [h1, h2]
  · simp [h1]

/-- C3: the Table Resolver tries Camelot (lattice, retried in stream mode on
zero tables), then pdfplumber, then word-clustering, stopping at the first
strategy that produced at least one non-empty table, so the word-clustering
fallback is not reached when a structured strategy produced tables; only
word-clustering results carry the marker description, structured results
carry an absent one. -/
theorem table_resolver_fallback_order (o : PdfOracle) (s ss : Option String) :
    (stratCaught (camelotBranch o s ss) ≠ [] →
      extract_tables o s ss = stratCaught (camelotBranch o s ss)
        ∧ wordFallbackInvoked o s ss = false)
    ∧ (stratCaught (camelotBranch o s ss) = [] →
        stratCaught (plumberBranch o s ss) ≠ [] →
      extract_tables o s ss = stratCaught (plumberBranch o s ss)
        ∧ wordFallbackInvoked o s ss = false)
    ∧ (stratCaught (camelotBranch o s ss) = [] →
        stratCaught (plumberBranch o s ss) = [] →
      extract_tables o s ss = stratCaught (wordBranch o s ss)
        ∧ wordFallbackInvoked o s ss = true)
    ∧ (o.camelotLattice = Except.ok [] →
      camelotBranch o s ss = (o.camelotStream).map (fun tbls => mkTableItems s ss tbls))
    ∧ (∀ item ∈ stratCaught (camelotBranch o s ss), item.description = none)
    ∧ (∀ item ∈ stratCaught (plumberBranch o s ss), item.description = none)
    ∧ (∀ item ∈ stratCaught (wordBranch o s ss),
        item.description = some "Reconstructed from word positions") := by
  refine ⟨?_, ?_, ?_, ?_, ?_, ?_, ?_⟩
  · intro hcam
    have h1 : (stratCaught (camelotBranch o s ss)).isEmpty = false := by
      cases hl : stratCaught (camelotBranch o s ss)
      · exact absurd hl hcam
      · rfl
    exact ⟨by simp [extract_tables, h1], by simp [wordFallbackInvoked, h1]⟩
  · intro hcam hplu
    have h2 : (stratCaught (plumberBranch o s ss)).isEmpty = false := by
      cases hl : stratCaught (plumberBranch o s ss)
      · exact absurd hl hplu
      · rfl
    exact ⟨by simp [extract_tables, hcam, h2], by simp [wordFallbackInvoked, hcam, h2]⟩
  · intro hcam hplu
    exact ⟨by simp [extract_tables, hcam, hplu], by simp [wordFallbackInvoked, hcam, hplu]⟩
  · intro hlat
    unfold camelotBranch
    rw [hlat]
    cases hst : o.camelotStream <;> rfl
  · intro item h
    obtain ⟨tbls, heq⟩ := camelot_shape o s ss
    rw [heq] at h
    exact (mem_mkTableItems h).1
  · intro item h
    obtain ⟨tbls, heq⟩ := plumber_shape o s ss
    rw [heq] at h
    exact (mem_mkTableItems h).1
  · intro item h
    exact (word_shape o s ss item h).1

theorem table_resolver_fallback_order_witness :
    extract_tables
        ⟨Except.ok [[[some "x"]]], Except.error (), Except.error (), Except.error ()⟩
        none none
      = stratCaught (camelotBranch
          ⟨Except.ok [[[some "x"]]], Except.error (), Except.error (), Except.error ()⟩
          none none)
    ∧ wordFallbackInvoked
        ⟨Except.ok [[[some "x"]]], Except.error (), Except.error (), Except.error ()⟩
        none none = false
    ∧ (⟨"Unknown", none, none, [["x"]]⟩ : TableItem).description = none := by
  have h := table_resolver_fallback_order
    ⟨Except.ok [[[some "x"]]], Except.error (), Except.error (), Except.error ()⟩ none none
  exact ⟨(h.1 (by decide)).1, (h.1 (by decide)).2,
    h.2.2.2.2.1 ⟨"Unknown", none, none, [["x"]]⟩ (by decide)⟩

/-- C9: every cell of every table returned by the Table Resolver, under
every strategy, is already stripped (a fixed point of `pyStrip`, i.e. the
result of coercion-and-trim), and the sanitizer maps an absent source cell
to the empty string — never a null-like value. -/
theorem table_cells_sanitized (o : PdfOracle) (s ss : Option String) (item : TableItem)
    (row : List String) (c : String)
    (hitem : item ∈ extract_tables o s ss) (hrow : row ∈ item.table_data) (hc : c ∈ row) :
    pyStrip c = c ∧ sanitizeCell none = "" := by
  refine ⟨?_, rfl⟩
  rcases extract_tables_cases hitem with h | h | h
  · obtain ⟨tbls, heq⟩ := camelot_shape o s ss
    rw [heq] at h
    obtain ⟨-, -, src, hsrc⟩ := mem_mkTableItems h
    rw [hsrc] at hrow
    exact sanitize_table_cells hrow hc
  · obtain ⟨tbls, heq⟩ := plumber_shape o s ss
    rw [heq] at h
    obtain ⟨-, -, src, hsrc⟩ := mem_mkTableItems h
    rw [hsrc] at hrow
    exact sanitize_table_cells hrow hc
  · obtain ⟨-, -, src, hsrc⟩ := word_shape o s ss item h
    rw [hsrc] at hrow
    exact sanitize_table_cells hrow hc

theorem table_cells_sanitized_witness :
    pyStrip "a" = "a" ∧ sanitizeCell none = "" :=
  table_cells_sanitized
    ⟨Except.ok [[[some " a ", none]]], Except.error (), Except.error (), Except.error ()⟩
    none none ⟨"Unknown", none, none, [["a", ""]]⟩ ["a", ""] "a"
    (by decide) (by decide) (by decide)

/-- C7 is violated by the code: a page with a text block whose bounding box
is missing makes `extract_text_and_headings` raise — Python's sort key
`(x["bbox"][1], x["bbox"][0])` subscripts `None` and raises `TypeError` —
instead of skipping the block or defaulting it to a font-size-0 paragraph.
The block does survive enrichment (second conjunct), so the failure is not
an empty-block skip. -/
theorem missing_bbox_raises :
    extract_text_and_headings [⟨[⟨[⟨"Hello world", 12, 0⟩]⟩], none⟩] none none
      = Except.error ()
    ∧ (enrichBlock ⟨[⟨[⟨"Hello world", 12, 0⟩]⟩], none⟩).isSome = true :=
  ⟨rfl, by decide⟩


/-! Page Assembler lemmas and the "Unknown" sentinel -/

theorem keyBlocks_mem :
    ∀ {l : List Block} {out : List ((ℚ × ℚ) × Block)},
      keyBlocks l = Except.ok out → ∀ ke ∈ out, ke.2 ∈ l := by
  intro l
  induction l with
  | nil =>
    intro out h ke hke
    simp [keyBlocks] at h
    subst h
    simp at hke
  | cons b rest ih =>
    intro out h ke hke
    unfold keyBlocks at h
    cases hk : blockSortKey b with
    | error e => rw [hk, exceptBind_error] at h; exact absurd h (by simp)
    | ok k =>
      rw [hk, exceptBind_ok] at h
      cases ht : keyBlocks rest with
      | error e => rw [ht, exceptBind_error] at h; exact absurd h (by simp)
      | ok tail =>
        rw [ht, exceptBind_ok] at h
        have hout : (k, b) :: tail = out := by
          injection h
        rw [← hout] at hke
        rcases List.mem_cons.mp hke with hke1 | hke2
        · rw [hke1]
          exact List.mem_cons_self _ _
        · exact List.mem_cons_of_mem _ (ih ht ke hke2)

theorem extract_text_no_section {bs : List RawBlock} {ss : Option String}
    {out : List Paragraph × Option String × Option String}
    (hok : extract_text_and_headings bs none ss = Except.ok out)
    (hnos : ∀ b ∈ bs.filterMap enrichBlock, isSectionHeading b = false) :
    out.2.1 = none ∧ ∀ p ∈ out.1, p.sectionName = "Unknown" := by
  unfold extract_text_and_headings at hok
  cases hK : keyBlocks (bs.filterMap enrichBlock) with
  | error e => rw [hK, exceptBind_error] at hok; exact absurd hok (by simp)
  | ok keyed =>
    rw [hK, exceptBind_ok] at hok
    have heq : classifyBlocks ((List.insertionSort keyLe keyed).map Prod.snd) none ss
        = out := by
      injection hok
    have hall : ∀ b ∈ (List.insertionSort keyLe keyed).map Prod.snd,
        isSectionHeading b = false := by
      intro b hb
      obtain ⟨ke, hke, hkeq⟩ := List.mem_map.mp hb
      have hkmem : ke ∈ keyed := (List.perm_insertionSort keyLe keyed).mem_iff.mp hke
      rw [← hkeq]
      exact hnos _ (keyBlocks_mem hK ke hkmem)
    rw [← heq]
    exact ⟨classifyBlocks_sectionState hall, classifyBlocks_unknown hall⟩

theorem extract_tables_sectionName {o : PdfOracle} {ss : Option String} {item : TableItem}
    (h : item ∈ extract_tables o none ss) : item.sectionName = "Unknown" := by
  rcases extract_tables_cases h with h | h | h
  · obtain ⟨tbls, heq⟩ := camelot_shape o none ss
    rw [heq] at h
    exact (mem_mkTableItems h).2.1
  · obtain ⟨tbls, heq⟩ := plumber_shape o none ss
    rw [heq] at h
    exact (mem_mkTableItems h).2.1
  · exact (word_shape o none ss item h).2.1

theorem extract_charts_sectionName {n : Nat} {ss : Option String} {item : ChartItem}
    (h : item ∈ extract_charts n none ss) : item.sectionName = "Unknown" := by
  unfold extract_charts at h
  by_cases hn : n = 0
  · simp [hn] at h
    rw [h]
    rfl
  · simp [hn] at h
    rw [h]
    rfl

theorem parsePages_unknown :
    ∀ (pages : List PageData) (n : Nat) (ss : Option String) (doc : List PageOut),
      parsePages pages n none ss = Except.ok doc →
      (∀ pd ∈ pages, ∀ b ∈ pd.blocks.filterMap enrichBlock,
          isSectionHeading b = false) →
      ∀ pg ∈ doc, ∀ item ∈ pg.content, item.sectionOf = "Unknown" := by
  intro pages
  induction pages with
  | nil =>
    intro n ss doc h _ pg hpg
    simp [parsePages] at h
    subst h
    simp at hpg
  | cons pd rest ih =>
    intro n ss doc h hnos pg hpg item hitem
    unfold parsePages processPage at h
    cases hE : extract_text_and_headings pd.blocks none ss with
    | error e => rw [hE, exceptBind_error, exceptBind_error] at h; exact absurd h (by simp)
    | ok r =>
      rw [hE, exceptBind_ok, exceptBind_ok] at h
      obtain ⟨hs2, hparas⟩ := extract_text_no_section hE (hnos pd (List.mem_cons_self _ _))
      cases hrest : parsePages rest (n + 1) r.2.1 r.2.2 with
      | error e => rw [hrest, exceptBind_error] at h; exact absurd h (by simp)
      | ok tail =>
        rw [hrest, exceptBind_ok] at h
        injection h with hdoc
        rw [← hdoc] at hpg
        rcases List.mem_cons.mp hpg with hpg1 | hpg2
        · rw [hpg1] at hitem
          rcases List.mem_append.mp hitem with hi | hi2
          · rcases List.mem_append.mp hi with hip | hit
            · obtain ⟨p, hp, hpe⟩ := List.mem_map.mp hip
              rw [← hpe]
              exact hparas p hp
            · obtain ⟨t, htm, hte⟩ := List.mem_map.mp hit
              rw [← hte]
              rw [hs2] at htm
              exact extract_tables_sectionName htm
          · obtain ⟨c, hcm, hce⟩ := List.mem_map.mp hi2
            rw [← hce]
            rw [hs2] at hcm
            exact extract_charts_sectionName hcm
        · rw [hs2] at hrest
          exact ih (n + 1) r.2.2 tail hrest
            (fun pd2 hpd2 => hnos pd2 (List.mem_cons_of_mem _ hpd2)) pg hpg2 item hitem

/-- C8: the section field of every emitted content item (paragraph, table,
or chart) is a `String`, never absent; when no section-heading block occurs
anywhere in the document, every emitted item carries the sentinel
`"Unknown"`, which is also what `sectionLabel` yields for the never-seen
state. -/
theorem section_defaults_to_unknown (pages : List PageData) (doc : List PageOut)
    (hok : parse_pdf pages = Except.ok doc)
    (hnos : ∀ pd ∈ pages, ∀ b ∈ pd.blocks.filterMap enrichBlock,
        isSectionHeading b = false) :
    (∀ pg ∈ doc, ∀ item ∈ pg.content, item.sectionOf = "Unknown")
    ∧ sectionLabel none = "Unknown" :=
  ⟨parsePages_unknown pages 1 none doc hok hnos, rfl⟩

theorem section_defaults_to_unknown_witness :
    (ContentItem.chart ⟨"Unknown", none, "Chart (vector or non-extractable)"⟩).sectionOf
      = "Unknown" := by
  have h := section_defaults_to_unknown
    [⟨[], ⟨Except.error (), Except.error (), Except.error (), Except.error ()⟩, 0⟩]
    [⟨1, [ContentItem.chart ⟨"Unknown", none, "Chart (vector or non-extractable)"⟩]⟩]
    (by rfl)
    (by intro pd hpd b hb; simp at hpd; rw [hpd] at hb; simp at hb)
  exact h.1 _ (List.mem_singleton.mpr rfl) _ (List.mem_singleton.mpr rfl)

end PdfApp
